import Mathlib

/-!
# A bounded worker pool (`threadpool.go`)

A shallow embedding of the Go package `threadpool`: the `ThreadPool` struct, its
methods, the worker loop and the construction options, together with the parts of
the Go runtime they rest on (buffered channels, `sync.WaitGroup`, `context`).

The pool is used by several goroutines at once, so the methods are embedded as
functions on the struct and the goroutines as a small-step transition function
`step` over a `State` holding the struct, the program counter of every worker and
the context it waits on, the submissions whose send has not completed, the clock, and
the progress of the caller blocked in `Wait`.
-/

namespace ThreadPoolSpec

/-! ## Runtime: errors, tasks, contexts, channels -/

/-- A non-nil Go `error` value; `Option Err` is the Go type `error`, `none` being `nil`. -/
abbrev Err := Nat

/-- A submitted `func(context.Context) error`. The pool never inspects a task, it only
moves it around and calls it, so a task is identified by a tag; the value a call
returns is supplied by the environment when the call ends (`Action.finish`). -/
structure Task where
  id : Nat
deriving DecidableEq, Repr

/-- A `context.Context` value, as the chain of nodes from the context up to the root.
Every derived node records whether its own cancel function has been invoked. -/
inductive Context where
  | background : Context
  | cancelNode (cancelled : Bool) (parent : Context) : Context
  | deadlineNode (cancelled : Bool) (deadline : Int) (parent : Context) : Context
deriving DecidableEq, Repr

namespace Context

/-- Whether `ctx.Done()` is closed at time `now`: the node was cancelled, its deadline
has passed, or an ancestor is done. -/
def done (now : Int) : Context → Bool
  | background => false
  | cancelNode c p => c || p.done now
  | deadlineNode c d p => c || decide (d ≤ now) || p.done now

/-- The effective deadline `ctx.Deadline()`: the earliest deadline on the chain. -/
def deadline : Context → Option Int
  | background => none
  | cancelNode _ p => p.deadline
  | deadlineNode _ d p =>
    match p.deadline with
    | none => some d
    | some pd => some (min d pd)

/-- Invoking the `CancelFunc` that was returned together with this context. -/
def cancel : Context → Context
  | background => background
  | cancelNode _ p => cancelNode true p
  | deadlineNode _ d p => deadlineNode true d p

/-- Invoking the cancel function of the node `k` levels above the context (the owner of
an inherited scope cancelling it). -/
def cancelAt : Nat → Context → Context
  | 0, c => c.cancel
  | _ + 1, background => background
  | k + 1, cancelNode c p => cancelNode c (p.cancelAt k)
  | k + 1, deadlineNode c d p => deadlineNode c d (p.cancelAt k)

/-- The context `k` levels above the given one. -/
def ancestor : Nat → Context → Context
  | 0, c => c
  | _ + 1, background => background
  | k + 1, cancelNode _ p => p.ancestor k
  | k + 1, deadlineNode _ _ p => p.ancestor k

/-- The context of `context.WithCancel(parent)`. -/
def WithCancel (parent : Context) : Context := cancelNode false parent

/-- The context of `context.WithDeadline(parent, d)`. -/
def WithDeadline (parent : Context) (d : Int) : Context := deadlineNode false d parent

/-- The context of `context.WithTimeout(parent, timeout)`, called at time `now`. -/
def WithTimeout (parent : Context) (now timeout : Int) : Context :=
  WithDeadline parent (now + timeout)

end Context

/-- A buffered channel `chan func(context.Context) error`. -/
structure Chan where
  buf : List Task
  cap : Nat
  closed : Bool
deriving DecidableEq, Repr

/-- The channel of `make(chan ..., n)`. -/
def Chan.make (n : Nat) : Chan := { buf := [], cap := n, closed := false }

/-! ## The pool -/

/-- The struct `ThreadPool`. The field `wg` is the counter of the `sync.WaitGroup`;
`cancel` is not a field of its own: it is always the cancel function of `ctx`, the
two being assigned together everywhere. The mutex `mu` is rendered by taking each
critical section as one step. -/
structure ThreadPool where
  maxWorkers : Int
  wg : Int
  queue : Chan
  stopOnError : Bool
  err : Option Err
  ctx : Context
  closed : Bool
deriving DecidableEq, Repr

/-- How far a call of a method that can block or panic gets when it runs without
interruption, and the pool it leaves: it returns, it blocks, or it panics. -/
inductive Outcome where
  | done (tp : ThreadPool) : Outcome
  | blocks (tp : ThreadPool) : Outcome
  | panics (tp : ThreadPool) : Outcome
deriving DecidableEq, Repr

/-- How far a call of `Wait` gets without blocking: it returns at once, it reaches
`tp.wg.Wait()`, or `close` panics. -/
inductive WaitEntry where
  | returned (err : Option Err) (tp : ThreadPool) : WaitEntry
  | waiting (tp : ThreadPool) : WaitEntry
  | panics (tp : ThreadPool) : WaitEntry
deriving DecidableEq, Repr

namespace ThreadPool

/-- The method `WithContext`. -/
def WithContext (tp : ThreadPool) (ctx : Context) : ThreadPool :=
  { tp with ctx := Context.WithCancel ctx }

/-- The method `SetDeadline`. -/
def SetDeadline (tp : ThreadPool) (deadline : Int) : ThreadPool :=
  { tp with ctx := Context.WithDeadline tp.ctx deadline }

/-- The method `SetTimeout`, called at time `now`. -/
def SetTimeout (tp : ThreadPool) (now timeout : Int) : ThreadPool :=
  { tp with ctx := Context.WithTimeout tp.ctx now timeout }

/-- The method `NumWorkers`. -/
def NumWorkers (tp : ThreadPool) : Int := tp.maxWorkers

/-- The method `Cancel`. -/
def Cancel (tp : ThreadPool) : ThreadPool :=
  { tp with ctx := tp.ctx.cancel }

/-- The send statement `tp.queue <- task`. A send on a closed channel panics; a send
on a full open channel blocks. -/
def send (tp : ThreadPool) (task : Task) : Outcome :=
  if tp.queue.closed then
    .panics tp
  else if tp.queue.buf.length < tp.queue.cap then
    .done { tp with queue := { tp.queue with buf := tp.queue.buf ++ [task] } }
  else
    .blocks tp

/-- The method `AddTask`, called at time `now` and run without interruption: the check
of the signal, then `tp.wg.Add(1)`, then the send. -/
def AddTask (tp : ThreadPool) (now : Int) (task : Task) : Outcome :=
  if tp.ctx.done now then
    .done tp
  else
    send { tp with wg := tp.wg + 1 } task

/-- The method `Wait` up to the call `tp.wg.Wait()`. -/
def Wait (tp : ThreadPool) : WaitEntry :=
  if tp.closed then
    .returned none tp
  else
    let tp1 := { tp with closed := true }
    if tp1.queue.closed then
      .panics tp1
    else
      .waiting { tp1 with queue := { tp1.queue with closed := true } }

/-- The critical section of `worker` (between `tp.mu.Lock()` and `tp.mu.Unlock()`),
entered with the value `err` the task returned. -/
def captureError (tp : ThreadPool) (err : Option Err) : ThreadPool :=
  match err with
  | none => tp
  | some e =>
    if tp.stopOnError && tp.err.isNone then
      { tp with err := some e, ctx := tp.ctx.cancel }
    else
      tp

end ThreadPool

/-- A `PoolOption` built by one of the three option constructors of the package. -/
inductive PoolOption where
  | StopOnError (stop : Bool) : PoolOption
  | WithContext (ctx : Context) : PoolOption
  | Timeout (timeout : Int) : PoolOption
deriving DecidableEq, Repr

/-- Calling the option on the pool, at time `now`. -/
def PoolOption.apply (now : Int) (tp : ThreadPool) : PoolOption → ThreadPool
  | .StopOnError stop => { tp with stopOnError := stop }
  | .WithContext ctx => tp.WithContext ctx
  | .Timeout timeout => tp.SetTimeout now timeout

/-- Whether the option is a `WithContext` option. -/
def PoolOption.isWithContext : PoolOption → Bool
  | .WithContext _ => true
  | _ => false

/-- Whether the option is a `StopOnError` option. -/
def PoolOption.isStopOnError : PoolOption → Bool
  | .StopOnError _ => true
  | _ => false

/-! ## Goroutines -/

/-- Where a worker goroutine stands in the loop of `worker`. -/
inductive Worker where
  | idle : Worker
  | running (task : Task) : Worker
  | finished (err : Option Err) : Worker
  | exited : Worker
deriving DecidableEq, Repr

/-- The context whose `Done()` channel a worker at its `select` waits on. The operand
`tp.ctx.Done()` is evaluated once, when the worker enters the `select`; the pool may
assign `tp.ctx` afterwards.

* `fresh`: the worker has not entered the `select` yet, and will read `tp.ctx`;
* `above k`: it entered when `tp.ctx` was the context now `k` levels above `tp.ctx`
  (`SetDeadline` and `SetTimeout` have derived `k` contexts from it since);
* `detached ctx`: it entered on `ctx`, which `WithContext` has since replaced. -/
inductive Held where
  | fresh : Held
  | above (k : Nat) : Held
  | detached (ctx : Context) : Held
deriving DecidableEq, Repr

/-- The context the worker waits on, `ctx` being the current `tp.ctx`. -/
def Held.context (ctx : Context) : Held → Context
  | .fresh => ctx
  | .above k => ctx.ancestor k
  | .detached c => c

/-- What a worker holds after `tp.ctx` was assigned a context derived from itself. -/
def Held.derive : Held → Held
  | .above k => .above (k + 1)
  | h => h

/-- What a worker holds after `tp.ctx`, until then `ctx`, was assigned an unrelated
context. -/
def Held.detach (ctx : Context) : Held → Held
  | .above k => .detached (ctx.ancestor k)
  | h => h

/-- Progress of the call of `Wait` that closed the pool. -/
inductive WaitPhase where
  | notCalled : WaitPhase
  | blocked : WaitPhase
  | woken : WaitPhase
  | returned (err : Option Err) : WaitPhase
deriving DecidableEq, Repr

/-- The pool together with its goroutines and the clock: the workers, the context each
of them waits on, and the tasks of the calls of `AddTask` that have incremented the
counter and not completed their send. The last five fields are history variables:
they record what has happened (`panicked` counts the sends that ended in a panic)
and influence no step. -/
structure State where
  tp : ThreadPool
  workers : List Worker
  held : List Held
  sending : List Task
  now : Int
  wait : WaitPhase
  panicked : Nat
  started : List Task
  results : List (Option Err)
  processed : List (Option Err)
  laterWaits : List (Option Err)
deriving DecidableEq, Repr

/-- The method `start`: one goroutine per worker, each at the top of its loop. -/
def start (tp : ThreadPool) (now : Int) : State :=
  { tp := tp, workers := List.replicate tp.maxWorkers.toNat Worker.idle,
    held := List.replicate tp.maxWorkers.toNat Held.fresh, sending := [], now := now,
    panicked := 0,
    wait := .notCalled, started := [], results := [], processed := [], laterWaits := [] }

/-- The function `NewThreadPool`, called at time `now`; `none` when `make` panics on a
negative size. -/
def NewThreadPool (maxWorkers : Int) (options : List PoolOption) (now : Int) : Option State :=
  if maxWorkers < 0 then
    none
  else
    let tp : ThreadPool :=
      { maxWorkers := maxWorkers, wg := 0, queue := Chan.make maxWorkers.toNat,
        stopOnError := true, err := none,
        ctx := Context.WithCancel Context.background, closed := false }
    some (start (options.foldl (PoolOption.apply now) tp) now)

/-- One atomic step of one goroutine, or of the environment. -/
inductive Action where
  | addTask (task : Task) : Action
  | addBegin (task : Task) : Action
  | send (i : Nat) : Action
  | waitCall : Action
  | waitWake : Action
  | waitRead : Action
  | cancel : Action
  | withContext (ctx : Context) : Action
  | setDeadline (deadline : Int) : Action
  | setTimeout (timeout : Int) : Action
  | park (w : Nat) : Action
  | receive (w : Nat) : Action
  | finish (w : Nat) (err : Option Err) : Action
  | capture (w : Nat) : Action
  | exitClosed (w : Nat) : Action
  | exitCancelled (w : Nat) : Action
  | tick : Action
  | parentCancel (k : Nat) : Action
  | scopeCancel (w : Nat) (k : Nat) : Action
deriving DecidableEq, Repr

/-- The context worker `w` waits on. -/
def heldContext (s : State) (w : Nat) : Context :=
  ((s.held[w]?).getD Held.fresh).context s.tp.ctx

/-- The transition function; `none` when the action cannot be taken in the state (the
goroutine is elsewhere, or the operation blocks).

* `addBegin task`: a call of `AddTask` checks the signal and either returns (the task
  is dropped) or calls `tp.wg.Add(1)` and stands before its send. The check reads
  only `tp.ctx` and the increment writes only the counter, so the two are one step.
  `send i`: the `i`-th pending send completes, or panics on the closed queue (the
  state after the panic is the one a recovering caller goes on with). Any pending
  send may complete when there is room; the order in which the runtime wakes blocked
  senders is not fixed by the model.
* `addTask task`: a call of `AddTask` that is not interrupted: `addBegin` followed at
  once by its send, when that send does not block.
* `waitCall`: a call of `Wait` up to `tp.wg.Wait()` (or to its early return);
  `waitWake`: `tp.wg.Wait()` returns, the counter being zero; `waitRead`: the lock
  is taken and `tp.err` returned.
* `cancel`, `withContext`, `setDeadline`, `setTimeout`: the methods of these names.
* `park w`: worker `w` enters its `select`, which fixes the context it waits on. A
  worker that has not parked enters the `select` in the step that takes a branch.
  `receive w`: it receives a task from the queue (the `select` may take this branch
  whenever a task is queued, the signal set or not); `finish w err`: its task
  returns `err` and the worker calls `tp.wg.Done()` (the return touches nothing
  shared, so the two are one step); `capture w`: its critical section;
  `exitClosed w`: it finds the queue closed and empty; `exitCancelled w`: it finds
  the `Done()` channel of the context it waits on closed.
* `tick`: the clock advances; `parentCancel k`: the owner of a scope that `tp.ctx`
  inherits cancels it; `scopeCancel w k`: the owner of a scope inherited by a context
  that only worker `w` still waits on cancels it.

The counter of the wait group never becomes negative in a reachable state
(`balanced_of_reachable`), so the panic of `Done` on a negative counter is left out. -/
def step (s : State) : Action → Option State
  | .addTask task =>
    match s.tp.AddTask s.now task with
    | .done tp => some { s with tp := tp }
    | .blocks tp => some { s with tp := tp, sending := s.sending ++ [task] }
    | .panics tp => some { s with tp := tp, panicked := s.panicked + 1 }
  | .addBegin task =>
    if s.tp.ctx.done s.now then
      some s
    else
      some { s with tp := { s.tp with wg := s.tp.wg + 1 }, sending := s.sending ++ [task] }
  | .send i =>
    match s.sending[i]? with
    | some task =>
      match s.tp.send task with
      | .done tp => some { s with tp := tp, sending := s.sending.eraseIdx i }
      | .blocks _ => none
      | .panics tp =>
        some { s with tp := tp, sending := s.sending.eraseIdx i, panicked := s.panicked + 1 }
    | none => none
  | .waitCall =>
    match s.tp.Wait with
    | .returned err tp => some { s with tp := tp, laterWaits := s.laterWaits ++ [err] }
    | .waiting tp => some { s with tp := tp, wait := .blocked }
    | .panics _ => none
  | .waitWake =>
    if s.wait = .blocked ∧ s.tp.wg = 0 then some { s with wait := .woken } else none
  | .waitRead =>
    if s.wait = .woken then some { s with wait := .returned s.tp.err } else none
  | .cancel => some { s with tp := s.tp.Cancel }
  | .withContext ctx =>
    some { s with tp := s.tp.WithContext ctx, held := s.held.map (Held.detach s.tp.ctx) }
  | .setDeadline deadline =>
    some { s with tp := s.tp.SetDeadline deadline, held := s.held.map Held.derive }
  | .setTimeout timeout =>
    some { s with tp := s.tp.SetTimeout s.now timeout, held := s.held.map Held.derive }
  | .park w =>
    match s.workers[w]?, s.held[w]? with
    | some .idle, some .fresh => some { s with held := s.held.set w (.above 0) }
    | _, _ => none
  | .receive w =>
    match s.workers[w]?, s.tp.queue.buf with
    | some .idle, task :: rest =>
      some { s with
        tp := { s.tp with queue := { s.tp.queue with buf := rest } }
        workers := s.workers.set w (.running task)
        held := s.held.set w .fresh
        started := s.started ++ [task] }
    | _, _ => none
  | .finish w err =>
    match s.workers[w]? with
    | some (.running _) =>
      some { s with
        tp := { s.tp with wg := s.tp.wg - 1 }
        workers := s.workers.set w (.finished err)
        results := s.results ++ [err] }
    | _ => none
  | .capture w =>
    match s.workers[w]? with
    | some (.finished err) =>
      some { s with
        tp := s.tp.captureError err
        workers := s.workers.set w .idle
        processed := s.processed ++ [err] }
    | _ => none
  | .exitClosed w =>
    match s.workers[w]? with
    | some .idle =>
      if s.tp.queue.closed ∧ s.tp.queue.buf = [] then
        some { s with workers := s.workers.set w .exited, held := s.held.set w .fresh }
      else none
    | _ => none
  | .exitCancelled w =>
    match s.workers[w]? with
    | some .idle =>
      if (heldContext s w).done s.now then
        some { s with workers := s.workers.set w .exited, held := s.held.set w .fresh }
      else none
    | _ => none
  | .tick => some { s with now := s.now + 1 }
  | .parentCancel k => some { s with tp := { s.tp with ctx := s.tp.ctx.cancelAt (k + 1) } }
  | .scopeCancel w k =>
    match s.held[w]? with
    | some (.detached ctx) => some { s with held := s.held.set w (.detached (ctx.cancelAt k)) }
    | _ => none

/-- Taking a sequence of actions one after the other. -/
def run (s : State) : List Action → Option State
  | [] => some s
  | a :: rest => (step s a).bind (fun s1 => run s1 rest)

/-- The states of a pool built by `NewThreadPool` that some interleaving reaches. -/
def Reachable (s : State) : Prop :=
  ∃ (maxWorkers : Int) (options : List PoolOption) (now : Int) (s0 : State)
    (acts : List Action),
    NewThreadPool maxWorkers options now = some s0 ∧ run s0 acts = some s

/-- The number of tasks being executed: the workers inside a call of a task. -/
def executing (s : State) : Nat :=
  s.workers.countP (fun w => match w with | .running _ => true | _ => false)

/-- The first non-nil error of a sequence of task results. -/
def firstError : List (Option Err) → Option Err
  | [] => none
  | none :: rest => firstError rest
  | some e :: _ => some e

/-! ## Predicates on states, and the states used as examples -/

/-- The number of submissions that have incremented the counter and whose task has
not been queued: the send is still pending, or it ended in a panic. -/
def unsent (s : State) : Nat := s.sending.length + s.panicked

/-- The counter of the wait group is the number of queued tasks, plus the number of
executing ones, plus the number of submissions counted and not queued. -/
def Balanced (s : State) : Prop :=
  s.tp.wg = (s.tp.queue.buf.length : Int) + (executing s : Int) + (unsent s : Int)

/-- Every worker has left its loop and a task is still queued. -/
def Stuck (s : State) : Prop :=
  Balanced s ∧ (∀ w ∈ s.workers, w = Worker.exited) ∧ s.tp.queue.buf ≠ []

/-- The task is neither queued, nor being executed, nor waiting to be sent, and has not
been started since the state `s`. -/
def Absent (s : State) (task : Task) (t : State) : Prop :=
  task ∉ t.tp.queue.buf ∧ Worker.running task ∉ t.workers ∧ task ∉ t.sending ∧
    (task ∈ t.started → task ∈ s.started)

/-- The captured error is empty or the first error processed, and is the first error
processed when the policy is stop-on-error. -/
def ErrInv (s : State) : Prop :=
  (s.tp.err = none ∨ s.tp.err = firstError s.processed) ∧
    (s.tp.stopOnError = true → s.tp.err = firstError s.processed)

/-- Once `Wait` has been called, the pool is marked closed. -/
def WaitInv (s : State) : Prop := s.wait ≠ .notCalled → s.tp.closed = true

/-- The state after one task was queued, a second submission blocked on the full
queue, the pool was cancelled, and the only worker left on the cancellation signal. -/
def strandedState : State :=
  { tp := { maxWorkers := 1, wg := 2, queue := { buf := [⟨1⟩], cap := 1, closed := false },
            stopOnError := true, err := none,
            ctx := Context.cancelNode true Context.background, closed := false },
    workers := [Worker.exited], held := [Held.fresh], sending := [⟨2⟩], now := 0,
    panicked := 0, wait := .notCalled,
    started := [], results := [], processed := [], laterWaits := [] }

/-- The state of a pool of one worker after three submissions: the first task is being
executed, the second fills the queue, and the third call of `AddTask` has incremented
the counter and is blocked in its send. -/
def blockedState : State :=
  { tp := { maxWorkers := 1, wg := 3, queue := { buf := [⟨2⟩], cap := 1, closed := false },
            stopOnError := true, err := none,
            ctx := Context.cancelNode false Context.background, closed := false },
    workers := [Worker.running ⟨1⟩], held := [Held.fresh], sending := [⟨3⟩], now := 0,
    panicked := 0, wait := .notCalled,
    started := [⟨1⟩], results := [], processed := [], laterWaits := [] }

/-- A pool of one idle worker that was cancelled before any task was submitted. -/
def cancelledState : State :=
  { tp := { maxWorkers := 1, wg := 0, queue := { buf := [], cap := 1, closed := false },
            stopOnError := true, err := none,
            ctx := Context.cancelNode true Context.background, closed := false },
    workers := [Worker.idle], held := [Held.fresh], sending := [], now := 0,
    panicked := 0, wait := .notCalled,
    started := [], results := [], processed := [], laterWaits := [] }

/-- The state after the single task failed with error 7, the error was captured, and
the first call of `Wait` returned it. -/
def waitedState : State :=
  { tp := { maxWorkers := 1, wg := 0, queue := { buf := [], cap := 1, closed := true },
            stopOnError := true, err := some 7,
            ctx := Context.cancelNode true Context.background, closed := true },
    workers := [Worker.idle], held := [Held.fresh], sending := [], now := 0,
    panicked := 0, wait := .returned (some 7),
    started := [⟨1⟩], results := [some 7], processed := [some 7], laterWaits := [] }

/-! ## Auxiliary facts -/

theorem countP_set_balance {α : Type} (p : α → Bool) :
    ∀ (l : List α) (i : Nat) (a old : α), l[i]? = some old →
      (l.set i a).countP p + (if p old then 1 else 0) =
        l.countP p + (if p a then 1 else 0) := by
  intro l
  induction l with
  | nil => intro i a old h; simp at h
  | cons x xs ih =>
    intro i a old h
    cases i with
    | zero =>
      simp at h
      subst h
      simp [List.countP_cons]
      omega
    | succ j =>
      simp at h
      have := ih j a old h
      simp [List.countP_cons]
      omega

theorem foldl_apply_fields (now : Int) (options : List PoolOption) :
    ∀ tp : ThreadPool,
      (options.foldl (PoolOption.apply now) tp).wg = tp.wg ∧
      (options.foldl (PoolOption.apply now) tp).queue = tp.queue ∧
      (options.foldl (PoolOption.apply now) tp).maxWorkers = tp.maxWorkers ∧
      (options.foldl (PoolOption.apply now) tp).err = tp.err ∧
      (options.foldl (PoolOption.apply now) tp).closed = tp.closed := by
  induction options with
  | nil => intro tp; simp
  | cons o rest ih =>
    intro tp
    have h := ih (PoolOption.apply now tp o)
    cases o <;>
      simpa [PoolOption.apply, ThreadPool.WithContext, ThreadPool.SetTimeout] using h

theorem run_invariant (P : State → Prop)
    (hstep : ∀ s a s1, P s → step s a = some s1 → P s1) :
    ∀ (acts : List Action) (s s1 : State), P s → run s acts = some s1 → P s1 := by
  intro acts
  induction acts with
  | nil =>
    intro s s1 hP h
    simp [run] at h
    exact h ▸ hP
  | cons a rest ih =>
    intro s s1 hP h
    simp only [run] at h
    cases hs : step s a with
    | none => simp [hs] at h
    | some s2 =>
      simp [hs] at h
      exact ih s2 s1 (hstep s a s2 hP hs) h

/-! ### What each kind of step does -/

theorem send_cases (tp : ThreadPool) (task : Task) :
    (tp.queue.closed = true ∧ tp.send task = .panics tp) ∨
    (tp.queue.closed = false ∧ tp.queue.buf.length < tp.queue.cap ∧
      tp.send task =
        .done { tp with queue := { tp.queue with buf := tp.queue.buf ++ [task] } }) ∨
    (tp.queue.closed = false ∧ ¬ tp.queue.buf.length < tp.queue.cap ∧
      tp.send task = .blocks tp) := by
  unfold ThreadPool.send
  by_cases hc : tp.queue.closed = true
  · left
    simp [hc]
  · simp only [Bool.not_eq_true] at hc
    by_cases hl : tp.queue.buf.length < tp.queue.cap
    · right; left
      simp [hc, hl]
    · right; right
      simp [hc, hl]

theorem step_addTask {s s1 : State} {task : Task} (h : step s (.addTask task) = some s1) :
    (s.tp.ctx.done s.now = true ∧ s1 = s) ∨
    (s.tp.ctx.done s.now = false ∧ s.tp.queue.closed = false ∧
      s.tp.queue.buf.length < s.tp.queue.cap ∧
      s1 = { s with tp := { s.tp with
              wg := s.tp.wg + 1
              queue := { s.tp.queue with buf := s.tp.queue.buf ++ [task] } } }) ∨
    (s.tp.ctx.done s.now = false ∧ s.tp.queue.closed = false ∧
      ¬ s.tp.queue.buf.length < s.tp.queue.cap ∧
      s1 = { s with tp := { s.tp with wg := s.tp.wg + 1 }
                    sending := s.sending ++ [task] }) ∨
    (s.tp.ctx.done s.now = false ∧ s.tp.queue.closed = true ∧
      s1 = { s with tp := { s.tp with wg := s.tp.wg + 1 }
                    panicked := s.panicked + 1 }) := by
  simp only [step, ThreadPool.AddTask] at h
  by_cases hd : s.tp.ctx.done s.now = true
  · left
    simp [hd] at h
    exact ⟨hd, h.symm⟩
  · right
    simp only [hd] at h
    simp only [Bool.not_eq_true] at hd
    rcases send_cases { s.tp with wg := s.tp.wg + 1 } task with
      ⟨hc, hs⟩ | ⟨hc, hl, hs⟩ | ⟨hc, hl, hs⟩
    · right; right
      rw [hs] at h
      simp at h hc
      exact ⟨hd, hc, h.symm⟩
    · left
      rw [hs] at h
      simp at h hc hl
      exact ⟨hd, hc, hl, h.symm⟩
    · right; left
      rw [hs] at h
      simp at h hc hl
      exact ⟨hd, hc, by omega, h.symm⟩

theorem step_addBegin {s s1 : State} {task : Task} (h : step s (.addBegin task) = some s1) :
    (s.tp.ctx.done s.now = true ∧ s1 = s) ∨
    (s.tp.ctx.done s.now = false ∧
      s1 = { s with tp := { s.tp with wg := s.tp.wg + 1 }
                    sending := s.sending ++ [task] }) := by
  simp only [step] at h
  by_cases hd : s.tp.ctx.done s.now = true
  · left
    simp [hd] at h
    exact ⟨hd, h.symm⟩
  · right
    simp [hd] at h
    simp only [Bool.not_eq_true] at hd
    exact ⟨hd, h.symm⟩

theorem step_send {s s1 : State} {i : Nat} (h : step s (.send i) = some s1) :
    ∃ task, s.sending[i]? = some task ∧
      ((s.tp.queue.closed = false ∧ s.tp.queue.buf.length < s.tp.queue.cap ∧
        s1 = { s with tp := { s.tp with
                  queue := { s.tp.queue with buf := s.tp.queue.buf ++ [task] } }
                      sending := s.sending.eraseIdx i }) ∨
       (s.tp.queue.closed = true ∧
        s1 = { s with sending := s.sending.eraseIdx i, panicked := s.panicked + 1 })) := by
  simp only [step] at h
  cases hi : s.sending[i]? with
  | none => simp [hi] at h
  | some task =>
    simp only [hi] at h
    refine ⟨task, rfl, ?_⟩
    rcases send_cases s.tp task with ⟨hc, hs⟩ | ⟨hc, hl, hs⟩ | ⟨hc, hl, hs⟩
    · right
      rw [hs] at h
      simp at h
      exact ⟨hc, h.symm⟩
    · left
      rw [hs] at h
      simp at h
      exact ⟨hc, hl, h.symm⟩
    · rw [hs] at h
      simp at h

theorem step_withContext {s s1 : State} {ctx : Context}
    (h : step s (.withContext ctx) = some s1) :
    s1 = { s with tp := s.tp.WithContext ctx, held := s.held.map (Held.detach s.tp.ctx) } := by
  simp only [step, Option.some.injEq] at h
  exact h.symm

theorem step_setDeadline {s s1 : State} {d : Int} (h : step s (.setDeadline d) = some s1) :
    s1 = { s with tp := s.tp.SetDeadline d, held := s.held.map Held.derive } := by
  simp only [step, Option.some.injEq] at h
  exact h.symm

theorem step_setTimeout {s s1 : State} {t : Int} (h : step s (.setTimeout t) = some s1) :
    s1 = { s with tp := s.tp.SetTimeout s.now t, held := s.held.map Held.derive } := by
  simp only [step, Option.some.injEq] at h
  exact h.symm

theorem step_park {s s1 : State} {w : Nat} (h : step s (.park w) = some s1) :
    s.workers[w]? = some .idle ∧ s1 = { s with held := s.held.set w (.above 0) } := by
  simp only [step] at h
  split at h
  · next hw _ =>
    simp at h
    exact ⟨hw, h.symm⟩
  · simp at h

theorem step_scopeCancel {s s1 : State} {w k : Nat} (h : step s (.scopeCancel w k) = some s1) :
    ∃ ctx : Context, s1 = { s with held := s.held.set w (.detached (ctx.cancelAt k)) } := by
  simp only [step] at h
  cases hw : s.held[w]? with
  | none => simp [hw] at h
  | some x =>
    cases x with
    | fresh => simp [hw] at h
    | above j => simp [hw] at h
    | detached ctx =>
      simp [hw] at h
      exact ⟨ctx, h.symm⟩

theorem step_waitCall {s s1 : State} (h : step s .waitCall = some s1) :
    (s.tp.closed = true ∧ s1 = { s with laterWaits := s.laterWaits ++ [none] }) ∨
    (s.tp.closed = false ∧ s.tp.queue.closed = false ∧
      s1 = { s with
              tp := { s.tp with closed := true, queue := { s.tp.queue with closed := true } }
              wait := .blocked }) := by
  simp only [step, ThreadPool.Wait] at h
  by_cases hc : s.tp.closed = true
  · left
    simp [hc] at h
    exact ⟨hc, h.symm⟩
  · right
    by_cases hq : s.tp.queue.closed = true
    · simp [hc, hq] at h
    · simp [hc, hq] at h
      simp at hc hq
      subst h
      simp [hc, hq]

theorem step_receive {s s1 : State} {w : Nat} (h : step s (.receive w) = some s1) :
    ∃ task rest, s.workers[w]? = some .idle ∧ s.tp.queue.buf = task :: rest ∧
      s1 = { s with
              tp := { s.tp with queue := { s.tp.queue with buf := rest } }
              workers := s.workers.set w (.running task)
              held := s.held.set w .fresh
              started := s.started ++ [task] } := by
  simp only [step] at h
  split at h
  · next task rest hw hq =>
    simp at h
    exact ⟨task, rest, hw, hq, h.symm⟩
  · simp at h

theorem step_finish {s s1 : State} {w : Nat} {err : Option Err}
    (h : step s (.finish w err) = some s1) :
    ∃ task, s.workers[w]? = some (.running task) ∧
      s1 = { s with
              tp := { s.tp with wg := s.tp.wg - 1 }
              workers := s.workers.set w (.finished err)
              results := s.results ++ [err] } := by
  simp only [step] at h
  split at h
  · next task hw =>
    simp at h
    exact ⟨task, hw, h.symm⟩
  · simp at h

theorem step_capture {s s1 : State} {w : Nat} (h : step s (.capture w) = some s1) :
    ∃ err, s.workers[w]? = some (.finished err) ∧
      s1 = { s with
              tp := s.tp.captureError err
              workers := s.workers.set w .idle
              processed := s.processed ++ [err] } := by
  simp only [step] at h
  split at h
  · next err hw =>
    simp at h
    exact ⟨err, hw, h.symm⟩
  · simp at h

theorem step_exitClosed {s s1 : State} {w : Nat} (h : step s (.exitClosed w) = some s1) :
    s.workers[w]? = some .idle ∧ s.tp.queue.closed = true ∧ s.tp.queue.buf = [] ∧
      s1 = { s with workers := s.workers.set w .exited, held := s.held.set w .fresh } := by
  simp only [step] at h
  split at h
  · next hw =>
    split at h
    · next hc =>
      simp at h
      exact ⟨hw, hc.1, hc.2, h.symm⟩
    · simp at h
  · simp at h

theorem step_exitCancelled {s s1 : State} {w : Nat}
    (h : step s (.exitCancelled w) = some s1) :
    s.workers[w]? = some .idle ∧ (heldContext s w).done s.now = true ∧
      s1 = { s with workers := s.workers.set w .exited, held := s.held.set w .fresh } := by
  simp only [step] at h
  split at h
  · next hw =>
    split at h
    · next hc =>
      simp at h
      exact ⟨hw, hc, h.symm⟩
    · simp at h
  · simp at h

theorem step_waitWake {s s1 : State} (h : step s .waitWake = some s1) :
    s.wait = .blocked ∧ s.tp.wg = 0 ∧ s1 = { s with wait := .woken } := by
  simp only [step] at h
  split at h
  · next hc =>
    simp at h
    exact ⟨hc.1, hc.2, h.symm⟩
  · simp at h

theorem step_waitRead {s s1 : State} (h : step s .waitRead = some s1) :
    s.wait = .woken ∧ s1 = { s with wait := .returned s.tp.err } := by
  simp only [step] at h
  split at h
  · next hc =>
    simp at h
    exact ⟨hc, h.symm⟩
  · simp at h

theorem length_eraseIdx_of_getElem? {α : Type} (l : List α) (i : Nat) (a : α)
    (h : l[i]? = some a) : (l.eraseIdx i).length + 1 = l.length := by
  have hlt := (List.getElem?_eq_some.mp h).1
  rw [List.length_eraseIdx]
  simp [hlt]
  omega

theorem balanced_step (s : State) (a : Action) (s1 : State)
    (hb : Balanced s) (h : step s a = some s1) : Balanced s1 := by
  unfold Balanced executing unsent at *
  cases a with
  | addTask task =>
    rcases step_addTask h with ⟨_, rfl⟩ | ⟨_, _, _, rfl⟩ | ⟨_, _, _, rfl⟩ | ⟨_, _, rfl⟩
    · exact hb
    · simp [hb]; omega
    · simp [hb]; omega
    · simp [hb]; omega
  | addBegin task =>
    rcases step_addBegin h with ⟨_, rfl⟩ | ⟨_, rfl⟩
    · exact hb
    · simp [hb]; omega
  | send i =>
    obtain ⟨task, hi, hcase⟩ := step_send h
    have hlen := length_eraseIdx_of_getElem? s.sending i task hi
    rcases hcase with ⟨_, _, rfl⟩ | ⟨_, rfl⟩
    · simp [hb]; omega
    · simp [hb]; omega
  | waitCall =>
    rcases step_waitCall h with ⟨_, rfl⟩ | ⟨_, _, rfl⟩ <;> simpa using hb
  | waitWake =>
    obtain ⟨_, _, rfl⟩ := step_waitWake h
    simpa using hb
  | waitRead =>
    obtain ⟨_, rfl⟩ := step_waitRead h
    simpa using hb
  | cancel => simp [step] at h; subst h; simpa [ThreadPool.Cancel] using hb
  | withContext ctx =>
    rw [step_withContext h]; simpa [ThreadPool.WithContext] using hb
  | setDeadline d =>
    rw [step_setDeadline h]; simpa [ThreadPool.SetDeadline] using hb
  | setTimeout t =>
    rw [step_setTimeout h]; simpa [ThreadPool.SetTimeout] using hb
  | park w =>
    obtain ⟨_, rfl⟩ := step_park h
    simpa using hb
  | receive w =>
    obtain ⟨task, rest, hw, hq, rfl⟩ := step_receive h
    have hc := countP_set_balance
      (fun w => match w with | Worker.running _ => true | _ => false)
      s.workers w (.running task) .idle hw
    simp at hc
    simp [hq] at hb ⊢
    omega
  | finish w err =>
    obtain ⟨task, hw, rfl⟩ := step_finish h
    have hc := countP_set_balance
      (fun w => match w with | Worker.running _ => true | _ => false)
      s.workers w (.finished err) (.running task) hw
    simp at hc
    simp at hb ⊢
    omega
  | capture w =>
    obtain ⟨err, hw, rfl⟩ := step_capture h
    have hc := countP_set_balance
      (fun w => match w with | Worker.running _ => true | _ => false)
      s.workers w .idle (.finished err) hw
    simp at hc
    have hf : (s.tp.captureError err).wg = s.tp.wg ∧
        (s.tp.captureError err).queue = s.tp.queue := by
      unfold ThreadPool.captureError
      cases err <;> simp
      split <;> simp
    simp [hf.1, hf.2] at hb ⊢
    omega
  | exitClosed w =>
    obtain ⟨hw, _, _, rfl⟩ := step_exitClosed h
    have hc := countP_set_balance
      (fun w => match w with | Worker.running _ => true | _ => false)
      s.workers w .exited .idle hw
    simp at hc
    simp at hb ⊢
    omega
  | exitCancelled w =>
    obtain ⟨hw, _, rfl⟩ := step_exitCancelled h
    have hc := countP_set_balance
      (fun w => match w with | Worker.running _ => true | _ => false)
      s.workers w .exited .idle hw
    simp at hc
    simp at hb ⊢
    omega
  | tick => simp [step] at h; subst h; simpa using hb
  | parentCancel k => simp [step] at h; subst h; simpa using hb
  | scopeCancel w k =>
    obtain ⟨ctx, rfl⟩ := step_scopeCancel h
    simpa using hb

theorem run_invariant_on (A : Action → Prop) (P : State → Prop)
    (hstep : ∀ s a s1, A a → P s → step s a = some s1 → P s1) :
    ∀ (acts : List Action) (s s1 : State),
      (∀ a ∈ acts, A a) → P s → run s acts = some s1 → P s1 := by
  intro acts
  induction acts with
  | nil =>
    intro s s1 _ hP h
    simp [run] at h
    exact h ▸ hP
  | cons a rest ih =>
    intro s s1 hA hP h
    simp only [run] at h
    cases hs : step s a with
    | none => simp [hs] at h
    | some s2 =>
      simp [hs] at h
      exact ih s2 s1 (fun b hb => hA b (List.mem_cons_of_mem a hb))
        (hstep s a s2 (hA a (List.mem_cons_self a rest)) hP hs) h

theorem run_append (s : State) (xs ys : List Action) :
    run s (xs ++ ys) = (run s xs).bind (fun s1 => run s1 ys) := by
  induction xs generalizing s with
  | nil => simp [run]
  | cons a rest ih =>
    simp only [List.cons_append, run]
    cases step s a with
    | none => simp
    | some s2 => simpa using ih s2

theorem reachable_run {s s1 : State} (acts : List Action) (hs : Reachable s)
    (h : run s acts = some s1) : Reachable s1 := by
  obtain ⟨W, options, now, s0, pre, h0, hpre⟩ := hs
  exact ⟨W, options, now, s0, pre ++ acts, h0, by simp [run_append, hpre, h]⟩

theorem reachable_invariant (P : State → Prop)
    (hinit : ∀ W options now s0, NewThreadPool W options now = some s0 → P s0)
    (hstep : ∀ s a s1, P s → step s a = some s1 → P s1) :
    ∀ s, Reachable s → P s := by
  intro s ⟨W, options, now, s0, acts, h0, hrun⟩
  exact run_invariant P hstep acts s0 s (hinit W options now s0 h0) hrun

theorem newThreadPool_eq {W : Int} {options : List PoolOption} {now : Int} {s0 : State}
    (h : NewThreadPool W options now = some s0) :
    0 ≤ W ∧ s0 = start (options.foldl (PoolOption.apply now)
      { maxWorkers := W, wg := 0, queue := Chan.make W.toNat, stopOnError := true,
        err := none, ctx := Context.WithCancel Context.background, closed := false }) now := by
  unfold NewThreadPool at h
  by_cases hW : W < 0
  · simp [hW] at h
  · simp [hW] at h
    exact ⟨by omega, h.symm⟩

theorem newThreadPool_of_nonneg {W : Int} (hW : 0 ≤ W) (options : List PoolOption)
    (now : Int) :
    NewThreadPool W options now = some (start (options.foldl (PoolOption.apply now)
      { maxWorkers := W, wg := 0, queue := Chan.make W.toNat, stopOnError := true,
        err := none, ctx := Context.WithCancel Context.background, closed := false }) now) := by
  have hn : ¬ W < 0 := by omega
  simp only [NewThreadPool, hn, if_false]

theorem executing_replicate_idle (n : Nat) :
    (List.replicate n Worker.idle).countP
      (fun w => match w with | Worker.running _ => true | _ => false) = 0 := by
  induction n with
  | zero => simp
  | succ k ih => simp [List.replicate_succ, List.countP_cons, ih]

theorem balanced_init {W : Int} {options : List PoolOption} {now : Int} {s0 : State}
    (h : NewThreadPool W options now = some s0) : Balanced s0 := by
  obtain ⟨_, rfl⟩ := newThreadPool_eq h
  have hf := foldl_apply_fields now options
    { maxWorkers := W, wg := 0, queue := Chan.make W.toNat, stopOnError := true,
      err := none, ctx := Context.WithCancel Context.background, closed := false }
  obtain ⟨h1, h2, _⟩ := hf
  simp only [Balanced, executing, unsent, start, h1, h2]
  simp [Chan.make, executing_replicate_idle]

theorem balanced_of_reachable (s : State) (h : Reachable s) : Balanced s :=
  reachable_invariant Balanced (fun _ _ _ _ h0 => balanced_init h0) balanced_step s h

theorem captureError_fields (tp : ThreadPool) (r : Option Err) :
    (tp.captureError r).maxWorkers = tp.maxWorkers ∧
    (tp.captureError r).stopOnError = tp.stopOnError ∧
    (tp.captureError r).wg = tp.wg ∧
    (tp.captureError r).queue = tp.queue ∧
    (tp.captureError r).closed = tp.closed := by
  unfold ThreadPool.captureError
  cases r <;> simp
  split <;> simp

/-- What no step changes: the worker count, the policy, the number of goroutines. -/
theorem step_frame {s s1 : State} {a : Action} (h : step s a = some s1) :
    s1.tp.maxWorkers = s.tp.maxWorkers ∧ s1.tp.stopOnError = s.tp.stopOnError ∧
      s1.workers.length = s.workers.length := by
  cases a with
  | addTask task =>
    rcases step_addTask h with ⟨_, rfl⟩ | ⟨_, _, _, rfl⟩ | ⟨_, _, _, rfl⟩ | ⟨_, _, rfl⟩ <;>
      simp
  | addBegin task =>
    rcases step_addBegin h with ⟨_, rfl⟩ | ⟨_, rfl⟩ <;> simp
  | send i =>
    obtain ⟨task, _, hcase⟩ := step_send h
    rcases hcase with ⟨_, _, rfl⟩ | ⟨_, rfl⟩ <;> simp
  | waitCall =>
    rcases step_waitCall h with ⟨_, rfl⟩ | ⟨_, _, rfl⟩ <;> simp
  | waitWake => obtain ⟨_, _, rfl⟩ := step_waitWake h; simp
  | waitRead => obtain ⟨_, rfl⟩ := step_waitRead h; simp
  | cancel => simp [step] at h; subst h; simp [ThreadPool.Cancel]
  | withContext ctx => rw [step_withContext h]; simp [ThreadPool.WithContext]
  | setDeadline d => rw [step_setDeadline h]; simp [ThreadPool.SetDeadline]
  | setTimeout t => rw [step_setTimeout h]; simp [ThreadPool.SetTimeout]
  | park w => obtain ⟨_, rfl⟩ := step_park h; simp
  | receive w => obtain ⟨task, rest, _, _, rfl⟩ := step_receive h; simp
  | finish w err => obtain ⟨task, _, rfl⟩ := step_finish h; simp
  | capture w =>
    obtain ⟨err, _, rfl⟩ := step_capture h
    have hf := captureError_fields s.tp err
    simp [hf.1, hf.2.1]
  | exitClosed w => obtain ⟨_, _, _, rfl⟩ := step_exitClosed h; simp
  | exitCancelled w => obtain ⟨_, _, rfl⟩ := step_exitCancelled h; simp
  | tick => simp [step] at h; subst h; simp
  | parentCancel k => simp [step] at h; subst h; simp
  | scopeCancel w k => obtain ⟨ctx, rfl⟩ := step_scopeCancel h; simp

theorem run_frame (acts : List Action) (s s1 : State) (h : run s acts = some s1) :
    s1.tp.maxWorkers = s.tp.maxWorkers ∧ s1.tp.stopOnError = s.tp.stopOnError ∧
      s1.workers.length = s.workers.length :=
  run_invariant
    (fun t => t.tp.maxWorkers = s.tp.maxWorkers ∧ t.tp.stopOnError = s.tp.stopOnError ∧
      t.workers.length = s.workers.length)
    (fun t a t1 ht hs => by
      have hf := step_frame hs
      exact ⟨hf.1.trans ht.1, hf.2.1.trans ht.2.1, hf.2.2.trans ht.2.2⟩)
    acts s s1 ⟨rfl, rfl, rfl⟩ h

theorem stuck_step (s : State) (a : Action) (s1 : State)
    (hs : Stuck s) (h : step s a = some s1) : Stuck s1 := by
  obtain ⟨hb, hw, hq⟩ := hs
  refine ⟨balanced_step s a s1 hb h, ?_⟩
  cases a with
  | addTask task =>
    rcases step_addTask h with ⟨_, rfl⟩ | ⟨_, _, _, rfl⟩ | ⟨_, _, _, rfl⟩ | ⟨_, _, rfl⟩
    · exact ⟨hw, hq⟩
    · exact ⟨hw, by simp⟩
    · exact ⟨hw, hq⟩
    · exact ⟨hw, hq⟩
  | addBegin task =>
    rcases step_addBegin h with ⟨_, rfl⟩ | ⟨_, rfl⟩ <;> exact ⟨hw, hq⟩
  | send i =>
    obtain ⟨task, _, hcase⟩ := step_send h
    rcases hcase with ⟨_, _, rfl⟩ | ⟨_, rfl⟩
    · exact ⟨hw, by simp⟩
    · exact ⟨hw, hq⟩
  | waitCall =>
    rcases step_waitCall h with ⟨_, rfl⟩ | ⟨_, _, rfl⟩ <;> exact ⟨hw, hq⟩
  | waitWake => obtain ⟨_, _, rfl⟩ := step_waitWake h; exact ⟨hw, hq⟩
  | waitRead => obtain ⟨_, rfl⟩ := step_waitRead h; exact ⟨hw, hq⟩
  | cancel => simp [step] at h; subst h; exact ⟨hw, hq⟩
  | withContext ctx => rw [step_withContext h]; exact ⟨hw, hq⟩
  | setDeadline d => rw [step_setDeadline h]; exact ⟨hw, hq⟩
  | setTimeout t => rw [step_setTimeout h]; exact ⟨hw, hq⟩
  | park w => obtain ⟨_, rfl⟩ := step_park h; exact ⟨hw, hq⟩
  | receive w =>
    obtain ⟨task, rest, hi, _, _⟩ := step_receive h
    exact absurd (hw _ (List.getElem?_mem hi)) (by simp)
  | finish w err =>
    obtain ⟨task, hi, _⟩ := step_finish h
    exact absurd (hw _ (List.getElem?_mem hi)) (by simp)
  | capture w =>
    obtain ⟨err, hi, _⟩ := step_capture h
    exact absurd (hw _ (List.getElem?_mem hi)) (by simp)
  | exitClosed w =>
    obtain ⟨hi, _, _, _⟩ := step_exitClosed h
    exact absurd (hw _ (List.getElem?_mem hi)) (by simp)
  | exitCancelled w =>
    obtain ⟨hi, _, _⟩ := step_exitCancelled h
    exact absurd (hw _ (List.getElem?_mem hi)) (by simp)
  | tick => simp [step] at h; subst h; exact ⟨hw, hq⟩
  | parentCancel k => simp [step] at h; subst h; exact ⟨hw, hq⟩
  | scopeCancel w k => obtain ⟨ctx, rfl⟩ := step_scopeCancel h; exact ⟨hw, hq⟩

theorem absent_step (s : State) (task : Task) (t : State) (a : Action) (t1 : State)
    (ha : a ≠ .addTask task) (hb : a ≠ .addBegin task) (hP : Absent s task t)
    (h : step t a = some t1) : Absent s task t1 := by
  obtain ⟨hq, hr, hsd, hst⟩ := hP
  have hset : ∀ (w : Nat) (x : Worker), x ≠ Worker.running task →
      Worker.running task ∉ t.workers.set w x := by
    intro w x hx hm
    rcases List.mem_or_eq_of_mem_set hm with hm | hm
    · exact hr hm
    · exact hx hm.symm
  cases a with
  | addTask task1 =>
    have hne : task ≠ task1 := fun e => ha (by rw [e])
    rcases step_addTask h with ⟨_, rfl⟩ | ⟨_, _, _, rfl⟩ | ⟨_, _, _, rfl⟩ | ⟨_, _, rfl⟩
    · exact ⟨hq, hr, hsd, hst⟩
    · exact ⟨by simp [hq, hne], hr, hsd, hst⟩
    · exact ⟨hq, hr, by simp [hsd, hne], hst⟩
    · exact ⟨hq, hr, hsd, hst⟩
  | addBegin task1 =>
    have hne : task ≠ task1 := fun e => hb (by rw [e])
    rcases step_addBegin h with ⟨_, rfl⟩ | ⟨_, rfl⟩
    · exact ⟨hq, hr, hsd, hst⟩
    · exact ⟨hq, hr, by simp [hsd, hne], hst⟩
  | send i =>
    obtain ⟨task1, hi, hcase⟩ := step_send h
    have hne : task ≠ task1 := fun e => hsd (e ▸ List.getElem?_mem hi)
    have herase : task ∉ t.sending.eraseIdx i := fun hm => hsd (List.mem_of_mem_eraseIdx hm)
    rcases hcase with ⟨_, _, rfl⟩ | ⟨_, rfl⟩
    · exact ⟨by simp [hq, hne], hr, herase, hst⟩
    · exact ⟨hq, hr, herase, hst⟩
  | waitCall =>
    rcases step_waitCall h with ⟨_, rfl⟩ | ⟨_, _, rfl⟩ <;> exact ⟨hq, hr, hsd, hst⟩
  | waitWake => obtain ⟨_, _, rfl⟩ := step_waitWake h; exact ⟨hq, hr, hsd, hst⟩
  | waitRead => obtain ⟨_, rfl⟩ := step_waitRead h; exact ⟨hq, hr, hsd, hst⟩
  | cancel => simp [step] at h; subst h; exact ⟨hq, hr, hsd, hst⟩
  | withContext ctx => rw [step_withContext h]; exact ⟨hq, hr, hsd, hst⟩
  | setDeadline d => rw [step_setDeadline h]; exact ⟨hq, hr, hsd, hst⟩
  | setTimeout t => rw [step_setTimeout h]; exact ⟨hq, hr, hsd, hst⟩
  | park w => obtain ⟨_, rfl⟩ := step_park h; exact ⟨hq, hr, hsd, hst⟩
  | receive w =>
    obtain ⟨task1, rest, _, hbuf, rfl⟩ := step_receive h
    rw [hbuf] at hq
    simp at hq
    refine ⟨hq.2, hset w _ (by simp; exact fun e => hq.1 e.symm), hsd, ?_⟩
    intro hm
    simp at hm
    rcases hm with hm | hm
    · exact hst hm
    · exact absurd hm hq.1
  | finish w err =>
    obtain ⟨task1, _, rfl⟩ := step_finish h
    exact ⟨hq, hset w _ (by simp), hsd, hst⟩
  | capture w =>
    obtain ⟨err, _, rfl⟩ := step_capture h
    refine ⟨?_, hset w _ (by simp), hsd, hst⟩
    simpa [(captureError_fields t.tp err).2.2.2.1] using hq
  | exitClosed w =>
    obtain ⟨_, _, _, rfl⟩ := step_exitClosed h
    exact ⟨hq, hset w _ (by simp), hsd, hst⟩
  | exitCancelled w =>
    obtain ⟨_, _, rfl⟩ := step_exitCancelled h
    exact ⟨hq, hset w _ (by simp), hsd, hst⟩
  | tick => simp [step] at h; subst h; exact ⟨hq, hr, hsd, hst⟩
  | parentCancel k => simp [step] at h; subst h; exact ⟨hq, hr, hsd, hst⟩
  | scopeCancel w k => obtain ⟨ctx, rfl⟩ := step_scopeCancel h; exact ⟨hq, hr, hsd, hst⟩

theorem firstError_append (l : List (Option Err)) (r : Option Err) :
    firstError (l ++ [r]) = match firstError l with
      | some e => some e
      | none => r := by
  induction l with
  | nil => cases r <;> simp [firstError]
  | cons x xs ih =>
    cases x with
    | none => simpa [firstError] using ih
    | some e => simp [firstError]

/-- A step leaves the captured error and the list of processed results alone, unless
it is a critical section of a worker. -/
theorem step_err {s s1 : State} {a : Action} (h : step s a = some s1) :
    (s1.tp.err = s.tp.err ∧ s1.processed = s.processed ∧
      s1.tp.stopOnError = s.tp.stopOnError) ∨
    (∃ r, s1.tp = s.tp.captureError r ∧ s1.processed = s.processed ++ [r]) := by
  cases a with
  | addTask task =>
    rcases step_addTask h with ⟨_, rfl⟩ | ⟨_, _, _, rfl⟩ | ⟨_, _, _, rfl⟩ | ⟨_, _, rfl⟩ <;>
      simp
  | addBegin task =>
    rcases step_addBegin h with ⟨_, rfl⟩ | ⟨_, rfl⟩ <;> simp
  | send i =>
    obtain ⟨task, _, hcase⟩ := step_send h
    rcases hcase with ⟨_, _, rfl⟩ | ⟨_, rfl⟩ <;> simp
  | waitCall =>
    rcases step_waitCall h with ⟨_, rfl⟩ | ⟨_, _, rfl⟩ <;> simp
  | waitWake => obtain ⟨_, _, rfl⟩ := step_waitWake h; simp
  | waitRead => obtain ⟨_, rfl⟩ := step_waitRead h; simp
  | cancel => simp [step] at h; subst h; simp [ThreadPool.Cancel]
  | withContext ctx => rw [step_withContext h]; simp [ThreadPool.WithContext]
  | setDeadline d => rw [step_setDeadline h]; simp [ThreadPool.SetDeadline]
  | setTimeout t => rw [step_setTimeout h]; simp [ThreadPool.SetTimeout]
  | park w => obtain ⟨_, rfl⟩ := step_park h; simp
  | receive w => obtain ⟨task, rest, _, _, rfl⟩ := step_receive h; simp
  | finish w err => obtain ⟨task, _, rfl⟩ := step_finish h; simp
  | capture w =>
    obtain ⟨err, _, rfl⟩ := step_capture h
    exact Or.inr ⟨err, rfl, rfl⟩
  | exitClosed w => obtain ⟨_, _, _, rfl⟩ := step_exitClosed h; simp
  | exitCancelled w => obtain ⟨_, _, rfl⟩ := step_exitCancelled h; simp
  | tick => simp [step] at h; subst h; simp
  | parentCancel k => simp [step] at h; subst h; simp
  | scopeCancel w k => obtain ⟨ctx, rfl⟩ := step_scopeCancel h; simp

theorem captureError_keeps (tp : ThreadPool) (r : Option Err) (e : Err)
    (h : tp.err = some e) : (tp.captureError r).err = some e := by
  unfold ThreadPool.captureError
  cases r with
  | none => simpa using h
  | some e1 => simp [h]

theorem errInv_step (s : State) (a : Action) (s1 : State)
    (hi : ErrInv s) (h : step s a = some s1) : ErrInv s1 := by
  rcases step_err h with ⟨he, hp, hso⟩ | ⟨r, htp, hp⟩
  · unfold ErrInv
    rw [he, hp, hso]
    exact hi
  · unfold ErrInv
    rw [htp, hp, firstError_append]
    obtain ⟨h1, h2⟩ := hi
    unfold ThreadPool.captureError
    cases r with
    | none =>
      simp only
      cases hf : firstError s.processed with
      | none => simpa [hf] using And.intro h1 h2
      | some e => simpa [hf] using And.intro h1 h2
    | some e1 =>
      by_cases hso : s.tp.stopOnError = true
      · have h3 := h2 hso
        cases hf : firstError s.processed with
        | none => simp [hso, h3, hf]
        | some e => simp [hso, h3, hf]
      · simp at hso
        cases hf : firstError s.processed with
        | none =>
          simp [hso]
          rcases h1 with h1 | h1
          · exact Or.inl h1
          · exact Or.inl (h1.trans hf)
        | some e => simpa [hso, hf] using h1

theorem errInv_init {W : Int} {options : List PoolOption} {now : Int} {s0 : State}
    (h : NewThreadPool W options now = some s0) : ErrInv s0 := by
  obtain ⟨_, rfl⟩ := newThreadPool_eq h
  have hf := (foldl_apply_fields now options
    { maxWorkers := W, wg := 0, queue := Chan.make W.toNat, stopOnError := true,
      err := none, ctx := Context.WithCancel Context.background, closed := false }).2.2.2.1
  simp only at hf
  simp [ErrInv, start, hf, firstError]

theorem err_stable_step (e : Err) (s : State) (a : Action) (s1 : State)
    (he : s.tp.err = some e) (h : step s a = some s1) : s1.tp.err = some e := by
  rcases step_err h with ⟨h1, _, _⟩ | ⟨r, htp, _⟩
  · rw [h1, he]
  · rw [htp]
    exact captureError_keeps s.tp r e he

theorem Context.done_cancel (now : Int) (c : Context) (h : c.done now = true) :
    c.cancel.done now = true := by
  cases c <;> simp_all [Context.cancel, Context.done]

theorem Context.cancel_cancel (c : Context) : c.cancel.cancel = c.cancel := by
  cases c <;> simp [Context.cancel]

theorem Context.done_cancelAt (now : Int) :
    ∀ (k : Nat) (c : Context), c.done now = true → (c.cancelAt k).done now = true := by
  intro k
  induction k with
  | zero => intro c h; simpa [Context.cancelAt] using Context.done_cancel now c h
  | succ j ih =>
    intro c h
    cases c with
    | background => simpa [Context.cancelAt] using h
    | cancelNode b p =>
      simp only [Context.cancelAt, Context.done, Bool.or_eq_true] at h ⊢
      rcases h with h | h
      · exact Or.inl h
      · exact Or.inr (ih p h)
    | deadlineNode b d p =>
      simp only [Context.cancelAt, Context.done, Bool.or_eq_true] at h ⊢
      rcases h with h | h
      · exact Or.inl h
      · exact Or.inr (ih p h)

theorem Context.done_later (now later : Int) (hle : now ≤ later) :
    ∀ c : Context, c.done now = true → c.done later = true := by
  intro c
  induction c with
  | background => simp [Context.done]
  | cancelNode b p ih =>
    simp only [Context.done, Bool.or_eq_true]
    rintro (h | h)
    · exact Or.inl h
    · exact Or.inr (ih h)
  | deadlineNode b d p ih =>
    simp only [Context.done, Bool.or_eq_true, decide_eq_true_eq]
    rintro ((h | h) | h)
    · exact Or.inl (Or.inl h)
    · exact Or.inl (Or.inr (by omega))
    · exact Or.inr (ih h)

theorem captureError_done (tp : ThreadPool) (r : Option Err) (now : Int)
    (h : tp.ctx.done now = true) : (tp.captureError r).ctx.done now = true := by
  unfold ThreadPool.captureError
  cases r with
  | none => simpa using h
  | some e =>
    simp only
    split
    · exact Context.done_cancel now tp.ctx h
    · exact h

/-- A step other than a call of `WithContext` keeps the cancellation signal set. -/
theorem done_step (s : State) (a : Action) (s1 : State)
    (ha : ∀ c, a ≠ .withContext c) (hd : s.tp.ctx.done s.now = true)
    (h : step s a = some s1) : s1.tp.ctx.done s1.now = true := by
  cases a with
  | addTask task =>
    rcases step_addTask h with ⟨_, rfl⟩ | ⟨_, _, _, rfl⟩ | ⟨_, _, _, rfl⟩ | ⟨_, _, rfl⟩ <;>
      simpa using hd
  | addBegin task =>
    rcases step_addBegin h with ⟨_, rfl⟩ | ⟨_, rfl⟩ <;> simpa using hd
  | send i =>
    obtain ⟨task, _, hcase⟩ := step_send h
    rcases hcase with ⟨_, _, rfl⟩ | ⟨_, rfl⟩ <;> simpa using hd
  | waitCall =>
    rcases step_waitCall h with ⟨_, rfl⟩ | ⟨_, _, rfl⟩ <;> simpa using hd
  | waitWake => obtain ⟨_, _, rfl⟩ := step_waitWake h; simpa using hd
  | waitRead => obtain ⟨_, rfl⟩ := step_waitRead h; simpa using hd
  | cancel =>
    simp [step] at h; subst h
    simpa [ThreadPool.Cancel] using Context.done_cancel s.now s.tp.ctx hd
  | withContext ctx => exact absurd rfl (ha ctx)
  | setDeadline d =>
    rw [step_setDeadline h]
    simp [ThreadPool.SetDeadline, Context.WithDeadline, Context.done, hd]
  | setTimeout t =>
    rw [step_setTimeout h]
    simp [ThreadPool.SetTimeout, Context.WithTimeout, Context.WithDeadline, Context.done, hd]
  | park w => obtain ⟨_, rfl⟩ := step_park h; simpa using hd
  | receive w => obtain ⟨task, rest, _, _, rfl⟩ := step_receive h; simpa using hd
  | finish w err => obtain ⟨task, _, rfl⟩ := step_finish h; simpa using hd
  | capture w =>
    obtain ⟨err, _, rfl⟩ := step_capture h
    exact captureError_done s.tp err s.now hd
  | exitClosed w => obtain ⟨_, _, _, rfl⟩ := step_exitClosed h; simpa using hd
  | exitCancelled w => obtain ⟨_, _, rfl⟩ := step_exitCancelled h; simpa using hd
  | tick =>
    simp [step] at h; subst h
    exact Context.done_later s.now (s.now + 1) (by omega) s.tp.ctx hd
  | parentCancel k =>
    simp [step] at h; subst h
    exact Context.done_cancelAt s.now (k + 1) s.tp.ctx hd
  | scopeCancel w k => obtain ⟨ctx, rfl⟩ := step_scopeCancel h; simpa using hd

theorem waitInv_step (s : State) (a : Action) (s1 : State)
    (hi : WaitInv s) (h : step s a = some s1) : WaitInv s1 := by
  unfold WaitInv at *
  cases a with
  | addTask task =>
    rcases step_addTask h with ⟨_, rfl⟩ | ⟨_, _, _, rfl⟩ | ⟨_, _, _, rfl⟩ | ⟨_, _, rfl⟩ <;>
      simpa using hi
  | addBegin task =>
    rcases step_addBegin h with ⟨_, rfl⟩ | ⟨_, rfl⟩ <;> simpa using hi
  | send i =>
    obtain ⟨task, _, hcase⟩ := step_send h
    rcases hcase with ⟨_, _, rfl⟩ | ⟨_, rfl⟩ <;> simpa using hi
  | waitCall =>
    rcases step_waitCall h with ⟨_, rfl⟩ | ⟨_, _, rfl⟩
    · simpa using hi
    · simp
  | waitWake =>
    obtain ⟨hw, _, rfl⟩ := step_waitWake h
    intro _
    exact hi (by rw [hw]; simp)
  | waitRead =>
    obtain ⟨hw, rfl⟩ := step_waitRead h
    intro _
    exact hi (by rw [hw]; simp)
  | cancel => simp [step] at h; subst h; simpa [ThreadPool.Cancel] using hi
  | withContext ctx => rw [step_withContext h]; simpa [ThreadPool.WithContext] using hi
  | setDeadline d => rw [step_setDeadline h]; simpa [ThreadPool.SetDeadline] using hi
  | setTimeout t => rw [step_setTimeout h]; simpa [ThreadPool.SetTimeout] using hi
  | park w => obtain ⟨_, rfl⟩ := step_park h; simpa using hi
  | receive w => obtain ⟨task, rest, _, _, rfl⟩ := step_receive h; simpa using hi
  | finish w err => obtain ⟨task, _, rfl⟩ := step_finish h; simpa using hi
  | capture w =>
    obtain ⟨err, _, rfl⟩ := step_capture h
    simpa [(captureError_fields s.tp err).2.2.2.2] using hi
  | exitClosed w => obtain ⟨_, _, _, rfl⟩ := step_exitClosed h; simpa using hi
  | exitCancelled w => obtain ⟨_, _, rfl⟩ := step_exitCancelled h; simpa using hi
  | tick => simp [step] at h; subst h; simpa using hi
  | parentCancel k => simp [step] at h; subst h; simpa using hi
  | scopeCancel w k => obtain ⟨ctx, rfl⟩ := step_scopeCancel h; simpa using hi

theorem waitInv_init {W : Int} {options : List PoolOption} {now : Int} {s0 : State}
    (h : NewThreadPool W options now = some s0) : WaitInv s0 := by
  obtain ⟨_, rfl⟩ := newThreadPool_eq h
  simp [WaitInv, start]

theorem timeout_deadline (now t : Int) (tp : ThreadPool) :
    ∃ d, ((PoolOption.Timeout t).apply now tp).ctx.deadline = some d ∧ d ≤ now + t ∧
      (∀ d0, tp.ctx.deadline = some d0 → d ≤ d0) := by
  simp only [PoolOption.apply, ThreadPool.SetTimeout, Context.WithTimeout,
    Context.WithDeadline, Context.deadline]
  cases hd : tp.ctx.deadline with
  | none => exact ⟨now + t, rfl, le_refl _, by simp⟩
  | some d0 =>
    refine ⟨min (now + t) d0, rfl, min_le_left _ _, ?_⟩
    intro d1 h1
    injection h1 with h1
    subst h1
    exact min_le_right _ _

theorem foldl_no_context_deadline (now : Int) :
    ∀ (l : List PoolOption), (∀ o ∈ l, o.isWithContext = false) →
      ∀ (tp : ThreadPool) (d0 : Int), tp.ctx.deadline = some d0 →
        ∃ d, (l.foldl (PoolOption.apply now) tp).ctx.deadline = some d ∧ d ≤ d0 := by
  intro l
  induction l with
  | nil => intro _ tp d0 h; exact ⟨d0, by simpa using h, le_refl _⟩
  | cons o rest ih =>
    intro hl tp d0 h
    have hrest : ∀ o ∈ rest, o.isWithContext = false :=
      fun x hx => hl x (List.mem_cons_of_mem o hx)
    have ho := hl o (List.mem_cons_self o rest)
    simp only [List.foldl_cons]
    cases o with
    | StopOnError stop =>
      exact ih hrest _ d0 (by simpa [PoolOption.apply] using h)
    | WithContext ctx => simp [PoolOption.isWithContext] at ho
    | Timeout t =>
      obtain ⟨d1, h1, _, h1le⟩ := timeout_deadline now t tp
      obtain ⟨d, hd, hle⟩ := ih hrest _ d1 h1
      exact ⟨d, hd, le_trans hle (h1le d0 h)⟩

theorem foldl_stopOnError_ctx (now : Int) :
    ∀ (l : List PoolOption), (∀ o ∈ l, o.isStopOnError = true) →
      ∀ tp : ThreadPool, (l.foldl (PoolOption.apply now) tp).ctx = tp.ctx := by
  intro l
  induction l with
  | nil => intro _ tp; rfl
  | cons o rest ih =>
    intro hl tp
    have hrest : ∀ o ∈ rest, o.isStopOnError = true :=
      fun x hx => hl x (List.mem_cons_of_mem o hx)
    have ho := hl o (List.mem_cons_self o rest)
    simp only [List.foldl_cons]
    cases o with
    | StopOnError stop => rw [ih hrest]; rfl
    | WithContext ctx => simp [PoolOption.isStopOnError] at ho
    | Timeout t => simp [PoolOption.isStopOnError] at ho

/-- With the policy stop-on-error off, the critical section changes nothing. -/
theorem captureError_of_not_stopOnError (tp : ThreadPool) (r : Option Err)
    (h : tp.stopOnError = false) : tp.captureError r = tp := by
  unfold ThreadPool.captureError
  cases r <;> simp [h]

/-- On a closed queue, with the signal not set, `AddTask` increments the counter and
panics. -/
theorem addTask_closed_panics (tp : ThreadPool) (now : Int) (task : Task)
    (hc : tp.queue.closed = true) (hd : tp.ctx.done now = false) :
    tp.AddTask now task = .panics { tp with wg := tp.wg + 1 } := by
  simp [ThreadPool.AddTask, ThreadPool.send, hc, hd]

theorem addTask_eq_addBegin_send (s : State) (task : Task) :
    step s (.addTask task) =
      (step s (.addBegin task)).bind (fun s1 =>
        if s.tp.ctx.done s.now then some s1
        else match step s1 (.send s.sending.length) with
          | some s2 => some s2
          | none => some s1) := by
  by_cases hd : s.tp.ctx.done s.now = true
  · simp [step, ThreadPool.AddTask, hd]
  · simp only [Bool.not_eq_true] at hd
    rcases send_cases { s.tp with wg := s.tp.wg + 1 } task with
      ⟨hc, hs⟩ | ⟨hc, hl, hs⟩ | ⟨hc, hl, hs⟩ <;>
      simp [step, ThreadPool.AddTask, hd, hs, List.eraseIdx_append_of_length_le]

/-- The captured error is set at most once. In every reachable state the field `err`
is either empty or the error of the first failing task that the critical section of
the workers processed; with the policy stop-on-error it is exactly the first
processed error; and once it holds an error, no sequence of later steps changes it. -/
theorem err_set_at_most_once (s : State) (hs : Reachable s) :
    (s.tp.err = none ∨ s.tp.err = firstError s.processed) ∧
    (s.tp.stopOnError = true → s.tp.err = firstError s.processed) ∧
    (∀ e, s.tp.err = some e →
      ∀ acts s1, run s acts = some s1 → s1.tp.err = some e) := by
  have hi := reachable_invariant ErrInv (fun _ _ _ _ h0 => errInv_init h0) errInv_step s hs
  refine ⟨hi.1, hi.2, ?_⟩
  intro e he acts s1 hrun
  exact run_invariant (fun t => t.tp.err = some e) (err_stable_step e) acts s s1 he hrun

/-! ## The claims -/

/-- C1: the code at the failing schedule. With stop-on-error on, the task returns error
7 and the worker decrements the pending count; `Wait` then finds the count zero, reads
the still empty `err` under the lock and returns nil, before the worker reaches its
critical section. -/
theorem C1_wait_returns_nil_after_task_error :
    ((NewThreadPool 1 [] 0).bind (fun s =>
        run s [.addTask ⟨1⟩, .receive 0, .finish 0 (some 7),
               .waitCall, .waitWake, .waitRead])).map
      (fun s => (s.tp.stopOnError, s.results, s.workers, s.wait)) =
    some (true, [some 7], [Worker.finished (some 7)], .returned none) := by decide

/-- C2: the code at the failing input. With stop-on-error off, two tasks return the
errors 7 and 8 and both results pass through the critical section; `err` stays empty,
the cancellation signal is not fired, and `Wait` returns nil. -/
theorem C2_error_dropped_without_stopOnError :
    ((NewThreadPool 2 [.StopOnError false] 0).bind (fun s =>
        run s [.addTask ⟨1⟩, .addTask ⟨2⟩, .receive 0, .receive 1,
               .finish 0 (some 7), .capture 0, .finish 1 (some 8), .capture 1,
               .waitCall, .waitWake, .waitRead])).map
      (fun s => (s.tp.stopOnError, s.processed, s.tp.err, s.tp.ctx.done s.now, s.wait)) =
    some (false, [some 7, some 8], none, false, .returned none) := by decide

/-- C3: the code at the failing input. With stop-on-error off, the task returns error
7 and its result passes through the critical section of the worker; the first failing
task processed has error 7, and the field `err` is still empty. -/
theorem C3_err_empty_after_processed_failure :
    ((NewThreadPool 1 [.StopOnError false] 0).bind (fun s =>
        run s [.addTask ⟨1⟩, .receive 0, .finish 0 (some 7), .capture 0])).map
      (fun s => (s.tp.stopOnError, s.processed, firstError s.processed, s.tp.err)) =
    some (false, [some 7], some 7, none) := by decide

/-- C4. When the cancellation signal is set, `AddTask` returns normally and leaves the
pool exactly as it was (pending count and queue included), so the whole state is
unchanged. A task dropped in this way that is not in the pool from an earlier
submission (neither queued, nor running, nor waiting in a pending send) is not
queued, run or started by any later steps, as long as it is not submitted again. -/
theorem C4_addTask_dropped_when_cancelled (s : State) (task : Task)
    (hdone : s.tp.ctx.done s.now = true) :
    s.tp.AddTask s.now task = .done s.tp ∧
    step s (.addTask task) = some s ∧
    step s (.addBegin task) = some s ∧
    (task ∉ s.tp.queue.buf → Worker.running task ∉ s.workers → task ∉ s.sending →
      ∀ acts s1, Action.addTask task ∉ acts → Action.addBegin task ∉ acts →
        run s acts = some s1 →
        task ∉ s1.tp.queue.buf ∧ Worker.running task ∉ s1.workers ∧ task ∉ s1.sending ∧
        (task ∈ s1.started → task ∈ s.started)) := by
  refine ⟨by simp [ThreadPool.AddTask, hdone], by simp [step, ThreadPool.AddTask, hdone],
    by simp [step, hdone], ?_⟩
  intro hq hr hsd acts s1 hacts hbegin hrun
  exact run_invariant_on (fun a => a ≠ .addTask task ∧ a ≠ .addBegin task) (Absent s task)
    (fun t a t1 ha hP h => absent_step s task t a t1 ha.1 ha.2 hP h) acts s s1
    (fun a ha => ⟨fun e => hacts (e ▸ ha), fun e => hbegin (e ▸ ha)⟩)
    ⟨hq, hr, hsd, fun h => h⟩ hrun

/-- C4, at a cancelled pool whose worker is still idle: task 5 is dropped, and it is not
started when the pool is later given a fresh context, accepts task 6 and the worker
receives from the queue. -/
theorem C4_addTask_dropped_when_cancelled_witness :
    cancelledState.tp.ctx.done cancelledState.now = true ∧
    cancelledState.tp.AddTask cancelledState.now ⟨5⟩ = .done cancelledState.tp ∧
    step cancelledState (.addTask ⟨5⟩) = some cancelledState ∧
    step cancelledState (.addBegin ⟨5⟩) = some cancelledState ∧
    (run cancelledState [.withContext .background, .addTask ⟨6⟩, .receive 0]).isSome = true ∧
    (∀ s1, run cancelledState [.withContext .background, .addTask ⟨6⟩, .receive 0] = some s1 →
        (⟨5⟩ : Task) ∉ s1.tp.queue.buf ∧ Worker.running ⟨5⟩ ∉ s1.workers ∧
        (⟨5⟩ : Task) ∉ s1.sending ∧
        ((⟨5⟩ : Task) ∈ s1.started → (⟨5⟩ : Task) ∈ cancelledState.started)) :=
  ⟨by decide,
   (C4_addTask_dropped_when_cancelled cancelledState ⟨5⟩ (by decide)).1,
   (C4_addTask_dropped_when_cancelled cancelledState ⟨5⟩ (by decide)).2.1,
   (C4_addTask_dropped_when_cancelled cancelledState ⟨5⟩ (by decide)).2.2.1,
   by decide,
   fun s1 h => (C4_addTask_dropped_when_cancelled cancelledState ⟨5⟩ (by decide)).2.2.2
     (by decide) (by decide) (by decide) _ s1 (by decide) (by decide) h⟩

/-- C5: the code at the failing input. After `Wait` has closed the pool and returned,
with the cancellation signal not set, `AddTask` increments the pending count and then
panics on the send to the closed queue: the call leaves the count at 1 with nothing
queued. -/
theorem C5_addTask_on_closed_pool_panics :
    ((NewThreadPool 1 [] 0).bind (fun s => run s [.waitCall, .waitWake, .waitRead])).map
      (fun s => (s.wait, s.tp.ctx.done s.now, s.tp.wg, s.tp.AddTask s.now ⟨1⟩,
        (step s (.addTask ⟨1⟩)).map
          (fun t => (t.tp.wg, t.tp.queue.buf, t.sending, t.panicked)))) =
    some (.returned none, false, 0,
      .panics { maxWorkers := 1, wg := 1, queue := { buf := [], cap := 1, closed := true },
                stopOnError := true, err := none,
                ctx := Context.cancelNode false Context.background, closed := true },
      some (1, [], [], 1)) := by rfl

/-- C6, as stated, fails: the first call of `Wait` returned error 7, and the second
call returned nil. -/
theorem C6_counterexample :
    ((NewThreadPool 1 [] 0).bind (fun s =>
        run s [.addTask ⟨1⟩, .receive 0, .finish 0 (some 7), .capture 0,
               .waitCall, .waitWake, .waitRead, .waitCall])).map
      (fun s => (s.wait, s.laterWaits)) =
    some (.returned (some 7), [none]) := by decide

/-- C6, amended. In every reachable state in which `Wait` has been called before
(whether that call has returned or is still blocked), a further call of `Wait`
returns nil at once, without blocking and without changing the pool; it therefore
returns what the first call returned exactly when the first call returned nil. -/
theorem C6_repeated_wait_returns_nil (s : State) (hs : Reachable s)
    (hcalled : s.wait ≠ .notCalled) :
    s.tp.Wait = .returned none s.tp ∧
    step s .waitCall = some { s with laterWaits := s.laterWaits ++ [none] } ∧
    (∀ r, s.wait = .returned r → (s.tp.Wait = .returned r s.tp ↔ r = none)) := by
  have hc : s.tp.closed = true :=
    reachable_invariant WaitInv (fun _ _ _ _ h0 => waitInv_init h0) waitInv_step s hs hcalled
  have hw : s.tp.Wait = .returned none s.tp := by simp [ThreadPool.Wait, hc]
  refine ⟨hw, by simp [step, hw], ?_⟩
  intro r _
  rw [hw]
  constructor
  · intro h
    injection h with h1 _
    exact h1.symm
  · intro h
    rw [h]

theorem waitedState_reachable : Reachable waitedState :=
  ⟨1, [], 0, _, [.addTask ⟨1⟩, .receive 0, .finish 0 (some 7), .capture 0,
      .waitCall, .waitWake, .waitRead], rfl, rfl⟩

/-- C6, at the state where the first call of `Wait` has returned error 7. -/
theorem C6_repeated_wait_returns_nil_witness :
    Reachable waitedState ∧ waitedState.wait ≠ .notCalled ∧
    waitedState.tp.Wait = .returned none waitedState.tp ∧
    step waitedState .waitCall =
      some { waitedState with laterWaits := waitedState.laterWaits ++ [none] } ∧
    (∀ r, waitedState.wait = .returned r →
      (waitedState.tp.Wait = .returned r waitedState.tp ↔ r = none)) :=
  ⟨waitedState_reachable, by decide,
   C6_repeated_wait_returns_nil waitedState waitedState_reachable (by decide)⟩

/-- C7, as stated, fails: after `Cancel` the signal is set, and a call of `WithContext`
with the background context leaves the pool with a signal that is not set. -/
theorem C7_counterexample :
    ((NewThreadPool 1 [] 0).bind (fun s => run s [.cancel])).map
      (fun s => s.tp.ctx.done s.now) = some true ∧
    ((NewThreadPool 1 [] 0).bind (fun s => run s [.cancel, .withContext .background])).map
      (fun s => s.tp.ctx.done s.now) = some false := by decide

/-- C7, amended. Once the cancellation signal is set it stays set along every sequence
of steps that contains no call of `WithContext` (`AddTask`, `Wait`, `Cancel`,
`SetDeadline`, `SetTimeout`, the steps of the workers, the passing of time); `Cancel`
called twice leaves the pool as `Cancel` called once; and after `WithContext` the
signal is set exactly when the supplied context is done. -/
theorem C7_cancellation_monotonic (s : State) (hdone : s.tp.ctx.done s.now = true) :
    (∀ acts s1, (∀ a ∈ acts, ∀ c, a ≠ Action.withContext c) → run s acts = some s1 →
      s1.tp.ctx.done s1.now = true) ∧
    s.tp.Cancel.Cancel = s.tp.Cancel ∧
    (∀ c, (s.tp.WithContext c).ctx.done s.now = c.done s.now) := by
  refine ⟨?_, ?_, ?_⟩
  · intro acts s1 hacts hrun
    exact run_invariant_on (fun a => ∀ c, a ≠ Action.withContext c)
      (fun t => t.tp.ctx.done t.now = true)
      (fun t a t1 ha hP h => done_step t a t1 ha hP h) acts s s1 hacts hdone hrun
  · simp [ThreadPool.Cancel, Context.cancel_cancel]
  · intro c
    simp [ThreadPool.WithContext, Context.WithCancel, Context.done]

/-- C7, at a cancelled pool: the signal survives a second `Cancel`, a new timeout, a
submission, a tick of the clock and `Wait`. -/
theorem C7_cancellation_monotonic_witness :
    cancelledState.tp.ctx.done cancelledState.now = true ∧
    (run cancelledState
      [.cancel, .setTimeout 5, .addTask ⟨1⟩, .tick, .waitCall]).isSome = true ∧
    (∀ s1, run cancelledState [.cancel, .setTimeout 5, .addTask ⟨1⟩, .tick, .waitCall] =
        some s1 → s1.tp.ctx.done s1.now = true) ∧
    cancelledState.tp.Cancel.Cancel = cancelledState.tp.Cancel ∧
    (∀ c, (cancelledState.tp.WithContext c).ctx.done cancelledState.now =
      c.done cancelledState.now) :=
  ⟨by decide, by decide,
   fun s1 h => (C7_cancellation_monotonic cancelledState (by decide)).1 _ s1 (by simp) h,
   (C7_cancellation_monotonic cancelledState (by decide)).2⟩

/-- C8, as stated, fails: with a timeout of 1 followed by a timeout of 10, the pool
built at time 0 has the effective deadline 1, not the deadline 10 of the later option. -/
theorem C8_counterexample :
    (NewThreadPool 1 [.Timeout 1, .Timeout 10] 0).map (fun s => s.tp.ctx.deadline) =
      some (some 1) ∧
    (NewThreadPool 1 [.Timeout 1, .Timeout 10] 0).map (fun s => s.tp.ctx.deadline) ≠
      some (some 10) := by decide

/-- C8, amended. Construction applies the options in order, and each timeout option
derives the context from the one the pool already has, so an earlier deadline is
kept: for an option list with a timeout `a` and a later timeout `b`, with no
`WithContext` option after the first of the two, the effective deadline of the
constructed pool is at most `now + a` and at most `now + b`; and when all the other
options are `StopOnError` options it is the earlier of `now + a` and `now + b`. -/
theorem C8_earliest_timeout_wins (W now a b : Int) (pre mid post : List PoolOption)
    (s0 : State)
    (h : NewThreadPool W (pre ++ [.Timeout a] ++ mid ++ [.Timeout b] ++ post) now = some s0)
    (hmid : ∀ o ∈ mid, o.isWithContext = false)
    (hpost : ∀ o ∈ post, o.isWithContext = false) :
    (∃ d, s0.tp.ctx.deadline = some d ∧ d ≤ now + a ∧ d ≤ now + b) ∧
    ((∀ o ∈ pre ++ mid ++ post, o.isStopOnError = true) →
      s0.tp.ctx.deadline = some (min (now + a) (now + b))) := by
  obtain ⟨_, rfl⟩ := newThreadPool_eq h
  simp only [start, List.foldl_append, List.foldl_cons, List.foldl_nil]
  constructor
  · obtain ⟨dA, hA, hAle, _⟩ := timeout_deadline now a
      (pre.foldl (PoolOption.apply now)
        { maxWorkers := W, wg := 0, queue := Chan.make W.toNat, stopOnError := true,
          err := none, ctx := Context.WithCancel Context.background, closed := false })
    obtain ⟨dM, hM, hMle⟩ := foldl_no_context_deadline now mid hmid _ dA hA
    obtain ⟨dB, hB, hBle, hBle2⟩ := timeout_deadline now b
      (mid.foldl (PoolOption.apply now) (PoolOption.apply now
        (pre.foldl (PoolOption.apply now)
          { maxWorkers := W, wg := 0, queue := Chan.make W.toNat, stopOnError := true,
            err := none, ctx := Context.WithCancel Context.background, closed := false })
        (.Timeout a)))
    obtain ⟨d, hd, hle⟩ := foldl_no_context_deadline now post hpost _ dB hB
    have := hBle2 dM hM
    exact ⟨d, hd, by omega, by omega⟩
  · intro hall
    have hpre : ∀ o ∈ pre, o.isStopOnError = true :=
      fun o ho => hall o (by simp [ho])
    have hmid1 : ∀ o ∈ mid, o.isStopOnError = true :=
      fun o ho => hall o (by simp [ho])
    have hpost1 : ∀ o ∈ post, o.isStopOnError = true :=
      fun o ho => hall o (by simp [ho])
    rw [foldl_stopOnError_ctx now post hpost1]
    simp only [PoolOption.apply, ThreadPool.SetTimeout, Context.WithTimeout,
      Context.WithDeadline, Context.deadline]
    rw [foldl_stopOnError_ctx now mid hmid1]
    simp only [Context.deadline]
    rw [foldl_stopOnError_ctx now pre hpre]
    simp only [Context.WithCancel, Context.deadline]
    rw [min_comm]

/-- C8, at the options stop-on-error off, timeout 1, timeout 10, applied at time 100:
the effective deadline is 101. -/
theorem C8_earliest_timeout_wins_witness :
    NewThreadPool 5 ([.StopOnError false] ++ [.Timeout 1] ++ [] ++ [.Timeout 10] ++ []) 100 =
      some (start { maxWorkers := 5, wg := 0, queue := Chan.make 5, stopOnError := false,
                    err := none,
                    ctx := Context.deadlineNode false 110 (Context.deadlineNode false 101
                      (Context.cancelNode false Context.background)),
                    closed := false } 100) ∧
    (∃ d, (start { maxWorkers := 5, wg := 0, queue := Chan.make 5, stopOnError := false,
                    err := none,
                    ctx := Context.deadlineNode false 110 (Context.deadlineNode false 101
                      (Context.cancelNode false Context.background)),
                    closed := false } 100).tp.ctx.deadline = some d ∧
        d ≤ 100 + 1 ∧ d ≤ 100 + 10) ∧
    (start { maxWorkers := 5, wg := 0, queue := Chan.make 5, stopOnError := false,
              err := none,
              ctx := Context.deadlineNode false 110 (Context.deadlineNode false 101
                (Context.cancelNode false Context.background)),
              closed := false } 100).tp.ctx.deadline = some (min (100 + 1) (100 + 10)) :=
  ⟨by decide,
   (C8_earliest_timeout_wins 5 100 1 10 [.StopOnError false] [] [] _ (by decide)
      (by simp) (by simp)).1,
   (C8_earliest_timeout_wins 5 100 1 10 [.StopOnError false] [] [] _ (by decide)
      (by simp) (by simp)).2 (by simp [PoolOption.isStopOnError])⟩

/-- C9. Construction with a worker count `W ≥ 1` succeeds and starts exactly `W`
workers, all at the top of their loop; `NumWorkers` returns `W`, at construction and
in every later state; and in every state the pool reaches, the number of tasks being
executed is at most `W`. -/
theorem C9_concurrency_bound (W : Int) (hW : 1 ≤ W) (options : List PoolOption)
    (now : Int) :
    ∃ s0, NewThreadPool W options now = some s0 ∧
      (s0.workers.length : Int) = W ∧ (∀ w ∈ s0.workers, w = Worker.idle) ∧
      s0.tp.NumWorkers = W ∧
      ∀ acts s, run s0 acts = some s →
        (s.workers.length : Int) = W ∧ s.tp.NumWorkers = W ∧ (executing s : Int) ≤ W := by
  refine ⟨_, newThreadPool_of_nonneg (by omega) options now, ?_, ?_, ?_, ?_⟩
  · simp [start, (foldl_apply_fields now options _).2.2.1]
    omega
  · intro w hw
    simp [start] at hw
    exact hw.2
  · simp [start, ThreadPool.NumWorkers, (foldl_apply_fields now options _).2.2.1]
  · intro acts s hrun
    have hf := run_frame acts _ s hrun
    have hlen : (s.workers.length : Int) = W := by
      rw [hf.2.2]
      simp [start, (foldl_apply_fields now options _).2.2.1]
      omega
    refine ⟨hlen, ?_, ?_⟩
    · simp [ThreadPool.NumWorkers, hf.1, start, (foldl_apply_fields now options _).2.2.1]
    · have := List.countP_le_length
        (fun w => match w with | Worker.running _ => true | _ => false) (l := s.workers)
      unfold executing
      omega

/-- C9, at a pool of two workers built without options. -/
theorem C9_concurrency_bound_witness :
    (1 : Int) ≤ 2 ∧
    ∃ s0, NewThreadPool 2 [] 0 = some s0 ∧
      (s0.workers.length : Int) = 2 ∧ (∀ w ∈ s0.workers, w = Worker.idle) ∧
      s0.tp.NumWorkers = 2 ∧
      ∀ acts s, run s0 acts = some s →
        (s.workers.length : Int) = 2 ∧ s.tp.NumWorkers = 2 ∧ (executing s : Int) ≤ 2 :=
  ⟨by decide, C9_concurrency_bound 2 (by decide) [] 0⟩

/-- C10, as stated, fails: with one worker, the first task is being executed, the
second is queued, and the third call of `AddTask` has incremented the counter and is
blocked in its send on the full queue; the pending count is 3, with one task queued
and one executing. -/
theorem C10_counterexample :
    ((NewThreadPool 1 [] 0).bind (fun s =>
        run s [.addTask ⟨1⟩, .receive 0, .addTask ⟨2⟩, .addTask ⟨3⟩])) = some blockedState ∧
    blockedState.tp.wg = 3 ∧ blockedState.tp.queue.buf.length = 1 ∧
    executing blockedState = 1 ∧
    blockedState.tp.wg ≠
      (blockedState.tp.queue.buf.length : Int) + (executing blockedState : Int) := by decide

/-- C10, amended. In every reachable state the pending count (the wait-group counter)
equals the number of queued tasks, plus the number of tasks being executed, plus the
number of submissions that have incremented the count and whose task has not been
queued; so it is at least the number of queued tasks plus the number of executing
ones, and equal to it when there is no such submission. Consequently, from a reachable state in which every worker has exited while a
task is still queued, every later state has a strictly positive pending count and a
non-empty queue, and the step on which `Wait` is blocked (the counter being zero)
cannot be taken. -/
theorem C10_pending_count_balance (s : State) (hs : Reachable s) :
    s.tp.wg = (s.tp.queue.buf.length : Int) + (executing s : Int) + (unsent s : Int) ∧
    (s.tp.queue.buf.length : Int) + (executing s : Int) ≤ s.tp.wg ∧
    (unsent s = 0 → s.tp.wg = (s.tp.queue.buf.length : Int) + (executing s : Int)) ∧
    ((∀ w ∈ s.workers, w = Worker.exited) → s.tp.queue.buf ≠ [] →
      ∀ acts s1, run s acts = some s1 →
        0 < s1.tp.wg ∧ s1.tp.queue.buf ≠ [] ∧ step s1 .waitWake = none) := by
  have hb := balanced_of_reachable s hs
  refine ⟨hb, ?_, ?_, ?_⟩
  · unfold Balanced at hb
    omega
  · intro h0
    unfold Balanced at hb
    omega
  · intro hw hq acts s1 hrun
    obtain ⟨hb1, _, hq1⟩ := run_invariant Stuck stuck_step acts s s1 ⟨hb, hw, hq⟩ hrun
    have hlen : 0 < s1.tp.queue.buf.length := List.length_pos.mpr hq1
    have hpos : 0 < s1.tp.wg := by
      unfold Balanced at hb1
      omega
    refine ⟨hpos, hq1, ?_⟩
    have hne : s1.tp.wg ≠ 0 := by omega
    simp [step, hne]

theorem strandedState_reachable : Reachable strandedState :=
  ⟨1, [], 0, _, [.addTask ⟨1⟩, .addTask ⟨2⟩, .cancel, .exitCancelled 0], rfl, rfl⟩

/-- C10, at the state where one task is queued, a second submission is blocked in its
send and the only worker has exited: the count is 2 = 1 + 0 + 1, and it stays
positive when `Wait` is then called and the blocked send panics on the closed queue. -/
theorem C10_pending_count_balance_witness :
    Reachable strandedState ∧
    strandedState.tp.wg = (strandedState.tp.queue.buf.length : Int) +
      (executing strandedState : Int) + (unsent strandedState : Int) ∧
    (strandedState.tp.queue.buf.length : Int) + (executing strandedState : Int) ≤
      strandedState.tp.wg ∧
    (unsent strandedState = 0 → strandedState.tp.wg =
      (strandedState.tp.queue.buf.length : Int) + (executing strandedState : Int)) ∧
    ((∀ w ∈ strandedState.workers, w = Worker.exited) ∧ strandedState.tp.queue.buf ≠ [] ∧
      (run strandedState [.waitCall, .send 0]).isSome = true ∧
      ∀ s1, run strandedState [.waitCall, .send 0] = some s1 →
        0 < s1.tp.wg ∧ s1.tp.queue.buf ≠ [] ∧ step s1 .waitWake = none) :=
  ⟨strandedState_reachable,
   (C10_pending_count_balance strandedState strandedState_reachable).1,
   (C10_pending_count_balance strandedState strandedState_reachable).2.1,
   (C10_pending_count_balance strandedState strandedState_reachable).2.2.1,
   by decide, by decide, by decide,
   fun s1 h => (C10_pending_count_balance strandedState strandedState_reachable).2.2.2
     (by decide) (by decide) [.waitCall, .send 0] s1 h⟩

end ThreadPoolSpec
